import Mathlib

/-!
MobileNetSSD demo (`source/main.cpp`): label loading, detection overlay, main loop.

A shallow embedding of the two functions of `source/main.cpp`:

* `getLabelsFromFile` (lines 19-35), over an explicit model of the input
  stream state (`std::ifstream` / `std::stringstream`: unread characters,
  `eofbit`, `failbit`);
* `main` (lines 37-181), as a function from the answers of the outside world
  (command line, capture device, file system, CUDA probe, detector, clock,
  keyboard) to an outcome (exit status, messages on standard error, frames
  written to the sink, counters of the library calls made).

`std::string` is `List Char`; `std::vector<std::string>` is `List (List Char)`.
-/

namespace MobileNetSSD

/-! ## Input streams -/

/-- State of a `std::istream`: the characters not yet extracted and the two
state bits the program can observe (`badbit` is never set by an in-memory or
regular-file read and is left out). -/
structure IStream where
  buf : List Char
  eofbit : Bool
  failbit : Bool
deriving DecidableEq, Repr

/-- Stream over the given characters, as left by a successful `open` or by the
`std::stringstream(line)` constructor: no state bit set. -/
def IStream.ofChars (cs : List Char) : IStream :=
  { buf := cs, eofbit := false, failbit := false }

/-- Member `eof()`: the `eofbit`. -/
def IStream.eof (s : IStream) : Bool := s.eofbit

/-- Member `good()`: no state bit set. -/
def IStream.good (s : IStream) : Bool := !s.eofbit && !s.failbit

/-- Extraction loop of `std::getline(is, str)`: characters are appended to
`str` until end of input (third component `true`: `eofbit`) or until the
delimiter `'\n'`, which is extracted and dropped. Returns the line, the
unread rest, and whether end of input was hit. -/
def getlineLoop : List Char → List Char → List Char × List Char × Bool
  | [], str => (str, [], true)
  | c :: cs, str => if c = '\n' then (str, cs, false) else getlineLoop cs (str ++ [c])

/-- Function `std::getline(is, str)` for an initially empty `str`. The sentry
fails on a stream that is not `good()` (sets `failbit`, extracts nothing).
Otherwise the extraction loop runs; `failbit` is set when nothing at all was
extracted, which happens exactly when the stream had no unread character. -/
def getline (s : IStream) : IStream × List Char :=
  if s.good then
    match getlineLoop s.buf [] with
    | (str, rest, hitEof) =>
      ({ buf := rest, eofbit := hitEof, failbit := s.buf.isEmpty }, str)
  else
    ({ s with failbit := true }, [])

/-- Predicate `std::isspace` in the "C" locale. -/
def isspace (c : Char) : Bool :=
  c = ' ' || c = '\t' || c = '\n' || c = '\x0b' || c = '\x0c' || c = '\r'

/-- Whitespace skipping done by the sentry of a formatted extraction. -/
def skipws : List Char → List Char
  | [] => []
  | c :: cs => if isspace c then skipws cs else c :: cs

/-- Character loop of `operator>>(istream&, std::string&)`: characters are
appended until end of input or the next whitespace character (not extracted). -/
def extractLoop : List Char → List Char → List Char
  | [], str => str
  | c :: cs, str => if isspace c then str else extractLoop cs (str ++ [c])

/-- Lines 27-30: `std::stringstream stream(line); std::string name; stream >> name;`
yields the value of `name`. When the line holds only whitespace the sentry
fails and `name` keeps its initial empty value. -/
def extractName (line : List Char) : List Char :=
  extractLoop (skipws line) []

/-! ## `getLabelsFromFile` (lines 19-35) -/

/-- The loop `while (!file.eof()) { ... labels.push_back(std::move(name)); }` of
lines 24-32. `fuel` bounds the number of iterations; `none` means the bound
was reached with the loop still running. -/
def readLoop : Nat → IStream → List (List Char) → Option (List (List Char))
  | 0, file, labels => if file.eof then some labels else none
  | fuel + 1, file, labels =>
    if file.eof then some labels
    else
      match getline file with
      | (file1, line) => readLoop fuel file1 (labels ++ [extractName line])

/-- Function `getLabelsFromFile(labels, nameFile)`. The file system is
represented by what `nameFile` resolves to: `none` when `open` fails
(`is_open()` is false), `some content` otherwise. The result is the value of
`labels` on return. Every iteration of the loop either extracts at least one
character or sets `eofbit`, so `content.length + 1` iterations always
suffice. -/
def getLabelsFromFile (labels : List (List Char)) (file : Option (List Char)) :
    Option (List (List Char)) :=
  match file with
  | none => some labels
  | some content => readLoop (content.length + 1) (IStream.ofChars content) labels

/-! ### Reference notions used to state the label-file properties -/

/-- Lines of a text: the maximal runs of characters between newline
characters (a text with `k` newlines has `k + 1` lines, the last one possibly
empty). This is `List.splitOn` at the newline character. -/
def splitLines : List Char → List (List Char)
  | [] => [[]]
  | c :: cs =>
    if c = '\n' then [] :: splitLines cs
    else
      match splitLines cs with
      | [] => [[c]]
      | l :: ls => (c :: l) :: ls

/-- First whitespace-delimited token of a line: drop the leading whitespace,
keep the characters up to the next whitespace (empty when there is none). -/
def firstToken (line : List Char) : List Char :=
  (line.dropWhile isspace).takeWhile (fun c => !isspace c)

/-- Number of non-empty lines of a text. -/
def nonEmptyLines (content : List Char) : Nat :=
  (splitLines content).countP (fun l => !l.isEmpty)

/-! ## Floating-point values -/

/-- A finite binary floating-point value, `mant / 2 ^ scale`. Every finite
`float` and `double` is of this form. Infinities and NaN are not represented. -/
structure Dyadic where
  mant : Int
  scale : Nat
deriving DecidableEq, Repr

/-- Conversion of an `int` to floating point (exact for the magnitudes that
occur here: frame sizes). -/
def Dyadic.ofInt (n : Int) : Dyadic := { mant := n, scale := 0 }

/-- Comparison `a < b` of the values. -/
def Dyadic.lt (a b : Dyadic) : Bool :=
  decide (a.mant * 2 ^ b.scale < b.mant * 2 ^ a.scale)

/-- Comparison `a ≤ b` of the values. -/
def Dyadic.le (a b : Dyadic) : Bool :=
  decide (a.mant * 2 ^ b.scale ≤ b.mant * 2 ^ a.scale)

/-- Exact product. -/
def Dyadic.mul (a b : Dyadic) : Dyadic :=
  { mant := a.mant * b.mant, scale := a.scale + b.scale }

/-- Exact difference. -/
def Dyadic.sub (a b : Dyadic) : Dyadic :=
  { mant := a.mant * 2 ^ b.scale - b.mant * 2 ^ a.scale, scale := a.scale + b.scale }

/-- Number of binary digits of a natural number (`fuel` bounds the count). -/
def bitLength : Nat → Nat → Nat
  | 0, _ => 0
  | fuel + 1, n => if n = 0 then 0 else bitLength fuel (n / 2) + 1

/-- Rounding to the nearest `float` (IEEE binary32: 24 significant bits, least
exponent `-149`), ties to even. Overflow to infinity is not represented. -/
def roundF32 (a : Dyadic) : Dyadic :=
  let n := a.mant.natAbs
  let shift := max (bitLength n n - 24) (a.scale - 149)
  if shift = 0 then a
  else
    let q := n / 2 ^ shift
    let r := n % 2 ^ shift
    let half := 2 ^ (shift - 1)
    let q1 := if half < r ∨ (r = half ∧ q % 2 = 1) then q + 1 else q
    let m : Int := if a.mant < 0 then - (q1 : Int) else (q1 : Int)
    if shift ≤ a.scale then { mant := m, scale := a.scale - shift }
    else { mant := m * 2 ^ (shift - a.scale), scale := 0 }

/-- Product of two `float` values: `a * b`. -/
def fmul (a b : Dyadic) : Dyadic := roundF32 (a.mul b)

/-- Difference of two `float` values: `a - b`. -/
def fsub (a b : Dyadic) : Dyadic := roundF32 (a.sub b)

/-- The value with its fractional part discarded (truncation toward zero). -/
def trunc (a : Dyadic) : Int := Int.tdiv a.mant (2 ^ a.scale)

/-- Least value of the 32-bit `int`. -/
def INT_MIN : Int := -2147483648
/-- Greatest value of the 32-bit `int`. -/
def INT_MAX : Int := 2147483647

/-- Conversion `static_cast<int>(x)` (also the implicit conversion of a `float`
argument to an `int` parameter): truncation toward zero. Undefined (`none`)
when the truncated value is outside the range of `int`. -/
def toInt (a : Dyadic) : Option Int :=
  if INT_MIN ≤ trunc a ∧ trunc a ≤ INT_MAX then some (trunc a) else none

/-- Conversion `static_cast<size_t>(x)`: truncation toward zero. Undefined
(`none`) when the truncated value is negative. A value of `2 ^ 64` or more
is undefined as well; it is kept as a number, since it is beyond the size of
any vector and fails the lookup anyway. -/
def toSizeT (a : Dyadic) : Option Nat :=
  if trunc a < 0 then none else some (trunc a).toNat

/-! ## Drawing and frames -/

/-- The two fonts used. -/
inductive Font where
  | HERSHEY_PLAIN
  | HERSHEY_COMPLEX_SMALL
deriving DecidableEq, Repr

/-- A drawing call made on the frame. Colour is the `cv::Scalar` triple. Font
scale, thickness and line type are constants of the call sites and are left
out. -/
inductive DrawCmd where
  | rectangle (x y width height : Int) (color : Nat × Nat × Nat)
  | putText (text : List Char) (x y : Int) (font : Font) (color : Nat × Nat × Nat)
deriving DecidableEq, Repr

/-- An operation of the detection loop whose behaviour C++ leaves undefined;
once one is reached nothing more is known about the run. -/
inductive Fault where
  /-- line 146: `static_cast<size_t>` of a value that truncates below zero -/
  | indexConversion
  /-- line 152: `static_cast<int>` of a value outside the range of `int` -/
  | intConversion
  /-- line 154: `labels[index]` with `index` not below `labels.size()` -/
  | labelOutOfBounds
deriving DecidableEq, Repr

/-- A picture delivered by the capture device: its dimensions and an opaque
identifier of its content. -/
structure Image where
  cols : Int
  rows : Int
  origin : Nat
deriving DecidableEq, Repr

/-- A frame being processed (`cv::Mat source`): dimensions, the captured
picture its pixels derive from, and the drawing calls applied so far, in
order. -/
structure Mat where
  cols : Int
  rows : Int
  origin : Nat
  drawn : List DrawCmd
deriving DecidableEq, Repr

/-- Constant `WIDTH` (line 15). -/
def WIDTH : Int := 500
/-- Constant `HEIGHT` (line 16). -/
def HEIGHT : Int := 500
/-- Constant `ESCAPE_KEY` (line 101). -/
def ESCAPE_KEY : Int := 27
/-- Constant `EXIT_SUCCESS`. -/
def EXIT_SUCCESS : Int := 0
/-- Constant `EXIT_FAILURE`. -/
def EXIT_FAILURE : Int := 1

/-- Constant `CONFIDENCE_THRESHOLD` (line 142): the `float` nearest to `0.3`,
which is `5033165 / 2 ^ 24 = 0.300000011920928955078125`. -/
def CONFIDENCE_THRESHOLD : Dyadic := { mant := 5033165, scale := 24 }

/-- Call `resize(source, source, cv::Size(WIDTH, HEIGHT), 0, 0)` on a freshly
captured picture (line 109): the result has the requested size. -/
def resize (img : Image) (width height : Int) : Mat :=
  { cols := width, rows := height, origin := img.origin, drawn := [] }

/-- One row of the detection tensor (`result`, line 140), columns 0 to 6. -/
structure Row where
  imageId : Dyadic
  classId : Dyadic
  confidence : Dyadic
  xmin : Dyadic
  ymin : Dyadic
  xmax : Dyadic
  ymax : Dyadic
deriving DecidableEq, Repr

/-- Lines 146-154 for one row that passed the confidence test: the drawing
calls made, in order, and the undefined operation that ended the run, if any.
The index conversion (line 146) comes first; the four `int` conversions build
the `cv::Rect` (line 152) before `cv::rectangle` is called (line 153); the
unchecked `labels[index]` is read for `cv::putText` (line 154), whose point
is converted from the same two values as the corner of the rectangle. -/
def drawRow (labels : List (List Char)) (cols rows : Int) (r : Row) :
    List DrawCmd × Option Fault :=
  match toSizeT r.classId with
  | none => ([], some Fault.indexConversion)
  | some index =>
    let tl_x := fmul r.xmin (Dyadic.ofInt cols)
    let tl_y := fmul r.ymin (Dyadic.ofInt rows)
    let br_x := fmul r.xmax (Dyadic.ofInt cols)
    let br_y := fmul r.ymax (Dyadic.ofInt rows)
    match toInt tl_x, toInt tl_y, toInt (fsub br_x tl_x), toInt (fsub br_y tl_y) with
    | some x, some y, some width, some height =>
      match labels[index]? with
      | none => ([DrawCmd.rectangle x y width height (0, 0, 255)], some Fault.labelOutOfBounds)
      | some text =>
        ([DrawCmd.rectangle x y width height (0, 0, 255),
          DrawCmd.putText text x y Font.HERSHEY_COMPLEX_SMALL (255, 0, 0)], none)
    | _, _, _, _ => ([], some Fault.intConversion)

/-- The loop of lines 143-156 over the rows of the detection tensor: the
drawing calls it makes on a frame of the given size, in order, and the
undefined operation at which it stopped, if any (`none`: the loop ran to its
end). -/
def detectionLoop (labels : List (List Char)) (cols rows : Int) :
    List Row → List DrawCmd × Option Fault
  | [] => ([], none)
  | r :: rest =>
    if CONFIDENCE_THRESHOLD.lt r.confidence then
      match drawRow labels cols rows r with
      | (calls, some fault) => (calls, some fault)
      | (calls, none) =>
        ((calls ++ (detectionLoop labels cols rows rest).1),
          (detectionLoop labels cols rows rest).2)
    else detectionLoop labels cols rows rest

/-- Whether a drawing call is a `cv::rectangle`. -/
def DrawCmd.isRectangle : DrawCmd → Bool
  | DrawCmd.rectangle _ _ _ _ _ => true
  | DrawCmd.putText _ _ _ _ _ => false

/-- Whether a drawing call is a `cv::putText`. -/
def DrawCmd.isPutText : DrawCmd → Bool
  | DrawCmd.rectangle _ _ _ _ _ => false
  | DrawCmd.putText _ _ _ _ _ => true

/-- A row passes the test of line 145: `confidence > CONFIDENCE_THRESHOLD`. -/
def Row.passes (r : Row) : Bool := CONFIDENCE_THRESHOLD.lt r.confidence

/-! ## Status line (lines 136-138 and 158-170) -/

/-- Decimal digits of a natural number, as by `%d`. -/
def decimal (n : Nat) : List Char := Nat.toDigits 10 n

/-- The six digits after the decimal point printed by `%f` for a count of
millionths below one million. -/
def sixDigits (n : Nat) : List Char :=
  [Nat.digitChar (n / 100000 % 10), Nat.digitChar (n / 10000 % 10),
   Nat.digitChar (n / 1000 % 10), Nat.digitChar (n / 100 % 10),
   Nat.digitChar (n / 10 % 10), Nat.digitChar (n % 10)]

/-- The value of `num / den` rounded to the nearest integer, ties to even. -/
def roundHalfEven (num den : Nat) : Nat :=
  let q := num / den
  let r := num % den
  if den < 2 * r ∨ (2 * r = den ∧ q % 2 = 1) then q + 1 else q

/-- Number of millionths in the six-decimal rendering of the magnitude of `t`. -/
def millionths (t : Dyadic) : Nat :=
  roundHalfEven (t.mant.natAbs * 1000000) (2 ^ t.scale)

/-- Function `std::to_string(double)`: the `%f` rendering, that is the value
rounded to six decimals, printed as integer part, point, six digits, with a
leading minus sign for a negative value. -/
def to_string_double (t : Dyadic) : List Char :=
  (if t.mant < 0 then ['-'] else []) ++
    decimal (millionths t / 1000000) ++ ['.'] ++ sixDigits (millionths t % 1000000)

/-- Function `std::to_string(int)`. -/
def to_string_int (n : Int) : List Char :=
  (if n < 0 then ['-'] else []) ++ decimal n.natAbs

/-- Lines 136-138: the string `runTime` for an elapsed time of `t` seconds
(`t` is the value of the `double` quotient of line 136). The call
`runTime.erase(runTime.end() - 3, runTime.end())` removes the last three
characters. -/
def runTimeString (t : Dyadic) : List Char :=
  let runTime := "run time: ".toList ++ to_string_double t
  let runTime := runTime.take (runTime.length - 3)
  runTime ++ "s".toList

/-- Lines 158-170: the four `cv::putText` calls of the status line, on a frame
of the given size. `ndebug` tells whether `NDEBUG` was defined at build time. -/
def statusLine (runTime : List Char) (ndebug cudaEnable : Bool) (cols rows : Int) :
    List DrawCmd :=
  [ DrawCmd.putText runTime 10 (rows - 10) Font.HERSHEY_PLAIN (0, 255, 0),
    DrawCmd.putText (if ndebug then "in release".toList else "in debug".toList)
      180 (rows - 10) Font.HERSHEY_PLAIN (0, 255, 0),
    DrawCmd.putText (if cudaEnable then "using GPUs".toList else "using CPUs".toList)
      300 (rows - 10) Font.HERSHEY_PLAIN (0, 255, 0),
    DrawCmd.putText (to_string_int cols ++ "x".toList ++ to_string_int rows)
      (cols - 80) (rows - 10) Font.HERSHEY_PLAIN (0, 255, 0) ]

/-! ## Acceleration selection (lines 92-99 and 119-123) -/

/-- Lines 92-99: the value of `cudaEnable`. `deviceCount` is the result of
`cv::cuda::getCudaEnabledDeviceCount()`, `isCompatible` that of
`deviceInfo.isCompatible()`. -/
def selectCuda (deviceCount : Int) (isCompatible useCuda : Bool) : Bool :=
  if deviceCount ≠ 0 then
    if isCompatible && useCuda then true else false
  else false

/-- Preferable backend of a network. -/
inductive Backend where
  | DNN_BACKEND_DEFAULT
  | DNN_BACKEND_CUDA
deriving DecidableEq, Repr

/-- Preferable target of a network. -/
inductive Target where
  | DNN_TARGET_CPU
  | DNN_TARGET_CUDA
deriving DecidableEq, Repr

/-- The part of a `cv::dnn::Net` the program sets. -/
structure Net where
  backend : Backend
  target : Target
deriving DecidableEq, Repr

/-- A network as returned by `readNetFromCaffe`: default backend, CPU target. -/
def Net.loaded : Net :=
  { backend := Backend.DNN_BACKEND_DEFAULT, target := Target.DNN_TARGET_CPU }

/-- Lines 119-123: the network after the optional selection of CUDA. -/
def configureNet (cudaEnable : Bool) (net : Net) : Net :=
  if cudaEnable then
    { net with backend := Backend.DNN_BACKEND_CUDA, target := Target.DNN_TARGET_CUDA }
  else net

/-! ## `main` (lines 37-181) -/

/-- Result of parsing the command line with `boost::program_options`. -/
inductive CommandLine where
  | invalid (what : List Char)
  | help
  | options (inputFile outputFile : List Char) (useCuda : Bool)
deriving DecidableEq, Repr

/-- What the outside world answers during one iteration of the main loop. -/
structure Tick where
  /-- result of `cv::waitKey(DELAY_MS)` -/
  key : Int
  /-- result of `capture.read(source)`: the picture, or `none` when it returns false -/
  frame : Option Image
  /-- result of `neuralNetwork.empty()` after `readNetFromCaffe` -/
  netEmpty : Bool
  /-- rows of the tensor returned by `neuralNetwork.forward("detection_out")` -/
  score : List Row
  /-- value of the quotient of line 136, in seconds -/
  elapsed : Dyadic

/-- The outside world of one run. -/
structure World where
  commandLine : CommandLine
  /-- result of `capture.isOpened()` after `open` -/
  captureOpened : Bool
  /-- content of `labelmap.txt` in the current directory, `none` if it cannot be opened -/
  labelFile : Option (List Char)
  deviceCount : Int
  isCompatible : Bool
  /-- whether the program was built with `NDEBUG` -/
  ndebug : Bool
  /-- answers during iteration `k` of the main loop (`k = 0, 1, ...`) -/
  tick : Nat → Tick

/-- What a run has done when it ends, or when the iteration bound is reached. -/
structure Outcome where
  /-- exit status of `main`; `none` while the loop is still running -/
  exit : Option Int
  /-- messages written to standard error, in order -/
  stderr : List (List Char)
  /-- number of calls of `capture.read` -/
  readCalls : Nat
  /-- number of those calls that delivered a frame -/
  framesRead : Nat
  /-- number of calls of `readNetFromCaffe` -/
  netLoads : Nat
  /-- network used by each forward pass run, in order -/
  forwardPasses : List Net
  /-- frame size the output sink was opened with (line 90), once it is opened -/
  sink : Option (Int × Int)
  /-- frames passed to `video.write`, in order -/
  written : List Mat
  /-- undefined operation at which the run stopped, if any -/
  fault : Option Fault
deriving DecidableEq, Repr

/-- Nothing done yet. -/
def Outcome.start : Outcome :=
  { exit := none, stderr := [], readCalls := 0, framesRead := 0, netLoads := 0,
    forwardPasses := [], sink := none, written := [], fault := none }

/-- Lines 109-171 for one captured picture whose network loaded: the network
used for the forward pass, the frame as annotated so far, and the undefined
operation met in the detection loop, if any. Without one the frame carries
the boxes and then the status line, and is ready to be shown and written. -/
def processFrame (labels : List (List Char)) (cudaEnable ndebug : Bool) (img : Image)
    (score : List Row) (elapsed : Dyadic) : Net × Mat × Option Fault :=
  let source := resize img WIDTH HEIGHT
  let neuralNetwork := configureNet cudaEnable Net.loaded
  let runTime := runTimeString elapsed
  match detectionLoop labels source.cols source.rows score with
  | (boxes, some fault) =>
    (neuralNetwork, { source with drawn := source.drawn ++ boxes }, some fault)
  | (boxes, none) =>
    let status := statusLine runTime ndebug cudaEnable source.cols source.rows
    (neuralNetwork, { source with drawn := source.drawn ++ boxes ++ status }, none)

/-- The loop of lines 102-174, started at iteration `k` with `acc` done so far.
`fuel` bounds the number of iterations; when it is used up the outcome has
`exit = none`. A run that reaches an undefined operation stops there, with
`exit = none` and the operation recorded in `fault`. -/
def mainLoop (w : World) (labels : List (List Char)) (cudaEnable : Bool) :
    Nat → Nat → Outcome → Outcome
  | 0, _, acc => acc
  | fuel + 1, k, acc =>
    if (w.tick k).key = ESCAPE_KEY then
      { acc with exit := some EXIT_SUCCESS }
    else
      match (w.tick k).frame with
      | none =>
        { acc with
          readCalls := acc.readCalls + 1
          stderr := acc.stderr ++ ["Video camera is disconnected!".toList]
          exit := some EXIT_FAILURE }
      | some img =>
        if (w.tick k).netEmpty then
          { acc with
            readCalls := acc.readCalls + 1
            framesRead := acc.framesRead + 1
            netLoads := acc.netLoads + 1
            stderr := acc.stderr ++ ["Could not load Caffe_net!".toList]
            exit := some EXIT_FAILURE }
        else
          match processFrame labels cudaEnable w.ndebug img (w.tick k).score (w.tick k).elapsed with
          | (net, _, some fault) =>
            { acc with
              readCalls := acc.readCalls + 1
              framesRead := acc.framesRead + 1
              netLoads := acc.netLoads + 1
              forwardPasses := acc.forwardPasses ++ [net]
              fault := some fault }
          | (net, source, none) =>
            mainLoop w labels cudaEnable fuel (k + 1)
              { acc with
                readCalls := acc.readCalls + 1
                framesRead := acc.framesRead + 1
                netLoads := acc.netLoads + 1
                forwardPasses := acc.forwardPasses ++ [net]
                written := acc.written ++ [source] }

/-- Function `main`, run for at most `fuel` iterations of its loop. -/
def main (fuel : Nat) (w : World) : Outcome :=
  match w.commandLine with
  | CommandLine.invalid what =>
    { Outcome.start with
      stderr := ["Error: ".toList ++ what], exit := some EXIT_FAILURE }
  | CommandLine.help => { Outcome.start with exit := some EXIT_SUCCESS }
  | CommandLine.options _ _ useCuda =>
    if !w.captureOpened then
      { Outcome.start with
        stderr := ["Cannot open video!".toList], exit := some EXIT_FAILURE }
    else
      match getLabelsFromFile [] w.labelFile with
      | none => Outcome.start
      | some labels =>
        if labels.isEmpty then
          { Outcome.start with
            stderr := ["Failed to read file!".toList], exit := some EXIT_FAILURE }
        else
          mainLoop w labels (selectCuda w.deviceCount w.isCompatible useCuda) fuel 0
            { Outcome.start with sink := some (WIDTH, HEIGHT) }

/-! ### Reference notions used to state the status-line properties -/

/-- The two digits after the decimal point of `t` truncated to two decimals. -/
def twoDigits (n : Nat) : List Char :=
  [Nat.digitChar (n / 10 % 10), Nat.digitChar (n % 10)]

/-- The three digits of a count of thousandths below one thousand. -/
def threeDigits (n : Nat) : List Char :=
  [Nat.digitChar (n / 100 % 10), Nat.digitChar (n / 10 % 10), Nat.digitChar (n % 10)]

/-- A non-negative `t` truncated to two decimal places: integer part, point,
two digits. -/
def truncTwoDecimals (t : Dyadic) : List Char :=
  decimal (t.mant.natAbs / 2 ^ t.scale) ++ ['.'] ++
    twoDigits (t.mant.natAbs * 100 / 2 ^ t.scale % 100)

/-- The network configured with the CUDA backend and target. -/
def Net.cuda : Net :=
  { backend := Backend.DNN_BACKEND_CUDA, target := Target.DNN_TARGET_CUDA }

/-- The third call of the status line on a `500 x 500` frame, with the given text. -/
def usingText (text : List Char) : DrawCmd :=
  DrawCmd.putText text 300 490 Font.HERSHEY_PLAIN (0, 255, 0)

/-- The frame written for a captured picture when the detector returns no
row: resized to `WIDTH x HEIGHT`, annotated with the status line only. -/
def statusOnlyFrame (img : Image) (elapsed : Dyadic) (ndebug cudaEnable : Bool) : Mat :=
  { cols := WIDTH, rows := HEIGHT, origin := img.origin,
    drawn := statusLine (runTimeString elapsed) ndebug cudaEnable WIDTH HEIGHT }

/-- The class index of a row is a valid index of the label list. -/
def Row.indexInBounds (labels : List (List Char)) (r : Row) : Prop :=
  0 ≤ trunc r.classId ∧ trunc r.classId < (labels.length : Int)

/-- The truncated value is within the range of `int`. -/
def inIntRange (a : Dyadic) : Prop := INT_MIN ≤ trunc a ∧ trunc a ≤ INT_MAX

/-- The four values converted to `int` for the rectangle of a row, on a frame
of the given size, are within the range of `int`. -/
def Row.pixelsInRange (cols rows : Int) (r : Row) : Prop :=
  inIntRange (fmul r.xmin (Dyadic.ofInt cols)) ∧
  inIntRange (fmul r.ymin (Dyadic.ofInt rows)) ∧
  inIntRange (fsub (fmul r.xmax (Dyadic.ofInt cols)) (fmul r.xmin (Dyadic.ofInt cols))) ∧
  inIntRange (fsub (fmul r.ymax (Dyadic.ofInt rows)) (fmul r.ymin (Dyadic.ofInt rows)))

/-- The rectangle and the label of a row on a frame of the given size: top-left
corner at the truncated `(xmin * cols, ymin * rows)`, width and height the
truncated differences, label text `labels[classId]` at the same corner. -/
def boxCalls (labels : List (List Char)) (cols rows : Int) (r : Row) : List DrawCmd :=
  [ DrawCmd.rectangle
      (trunc (fmul r.xmin (Dyadic.ofInt cols)))
      (trunc (fmul r.ymin (Dyadic.ofInt rows)))
      (trunc (fsub (fmul r.xmax (Dyadic.ofInt cols)) (fmul r.xmin (Dyadic.ofInt cols))))
      (trunc (fsub (fmul r.ymax (Dyadic.ofInt rows)) (fmul r.ymin (Dyadic.ofInt rows))))
      (0, 0, 255),
    DrawCmd.putText ((labels[(trunc r.classId).toNat]?).getD [])
      (trunc (fmul r.xmin (Dyadic.ofInt cols)))
      (trunc (fmul r.ymin (Dyadic.ofInt rows)))
      Font.HERSHEY_COMPLEX_SMALL (255, 0, 0) ]

/-- A detection of class 1 with confidence `0.875` and normalized corners
`(0.203125, 0.203125)` and `(0.640625, 0.640625)`; on a `500 x 500` frame
the products `101.5625` and `320.3125` and their difference `218.75` are
exact in `float`. -/
def sampleRow : Row :=
  { imageId := { mant := 0, scale := 0 }
    classId := { mant := 1, scale := 0 }
    confidence := { mant := 7, scale := 3 }
    xmin := { mant := 13, scale := 6 }
    ymin := { mant := 13, scale := 6 }
    xmax := { mant := 41, scale := 6 }
    ymax := { mant := 41, scale := 6 } }

/-- The row `sampleRow` with class index 2. -/
def oobRow : Row := { sampleRow with classId := { mant := 2, scale := 0 } }

/-- A row above the threshold with all corners at zero and the given class index. -/
def cornerRow (classId : Int) : Row :=
  { imageId := { mant := 0, scale := 0 }
    classId := { mant := classId, scale := 0 }
    confidence := { mant := 7, scale := 3 }
    xmin := { mant := 0, scale := 0 }
    ymin := { mant := 0, scale := 0 }
    xmax := { mant := 0, scale := 0 }
    ymax := { mant := 0, scale := 0 } }

/-- A world whose capture opens, whose command line is valid, and that
answers iteration `k` with `tick k`. -/
def World.running (labelFile : Option (List Char)) (useCuda : Bool) (deviceCount : Int)
    (isCompatible : Bool) (tick : Nat → Tick) : World :=
  { commandLine := CommandLine.options [] "output.mp4".toList useCuda
    captureOpened := true
    labelFile := labelFile
    deviceCount := deviceCount
    isCompatible := isCompatible
    ndebug := false
    tick := tick }

/-- A source of exactly `n` frames of size `cols x rows`, no key pressed, a
network that loads, a detector that returns no row. -/
def quietTick (n : Nat) (cols rows : Int) (k : Nat) : Tick :=
  { key := -1
    frame := if k < n then some { cols := cols, rows := rows, origin := k } else none
    netEmpty := false
    score := []
    elapsed := { mant := 1, scale := 1 } }

/-- A run on a source of ten `640 x 480` frames with a label file of two
entries, no accelerator, no key pressed and a detector that returns no row. -/
def tenFrameWorld : World :=
  World.running (some "person\ncar".toList) true 0 true (quietTick 10 640 480)


/-! ## Label loading: the loop computes the first token of every line -/

theorem getlineLoop_acc (cs str : List Char) :
    getlineLoop cs str =
      (str ++ (getlineLoop cs []).1, (getlineLoop cs []).2.1, (getlineLoop cs []).2.2) := by
  induction cs generalizing str with
  | nil => simp [getlineLoop]
  | cons c cs ih =>
    by_cases hc : c = '\n'
    · simp [getlineLoop, hc]
    · simp only [getlineLoop, hc, if_false, List.nil_append]
      rw [ih (str ++ [c]), ih [c]]
      simp

theorem splitLines_eq_getlineLoop (cs : List Char) :
    splitLines cs =
      if (getlineLoop cs []).2.2 then [(getlineLoop cs []).1]
      else (getlineLoop cs []).1 :: splitLines (getlineLoop cs []).2.1 := by
  induction cs with
  | nil => simp [splitLines, getlineLoop]
  | cons c cs ih =>
    by_cases hc : c = '\n'
    · simp [splitLines, getlineLoop, hc]
    · simp only [splitLines, getlineLoop, hc, if_false, List.nil_append]
      rw [getlineLoop_acc cs [c], ih]
      by_cases he : (getlineLoop cs []).2.2 = true
      · simp [he]
      · simp [he]

theorem getlineLoop_rest_length (cs str : List Char) :
    (getlineLoop cs str).2.2 = false → (getlineLoop cs str).2.1.length < cs.length := by
  induction cs generalizing str with
  | nil => simp [getlineLoop]
  | cons c cs ih =>
    by_cases hc : c = '\n'
    · simp [getlineLoop, hc]
    · simp only [getlineLoop, hc, if_false]
      intro h
      have := ih (str ++ [c]) h
      simp only [List.length_cons]
      omega

theorem skipws_eq_dropWhile (cs : List Char) : skipws cs = cs.dropWhile isspace := by
  induction cs with
  | nil => rfl
  | cons c cs ih =>
    by_cases hc : isspace c = true
    · simp [skipws, hc, ih]
    · simp [skipws, hc]

theorem extractLoop_eq_takeWhile (cs str : List Char) :
    extractLoop cs str = str ++ cs.takeWhile (fun c => !isspace c) := by
  induction cs generalizing str with
  | nil => simp [extractLoop]
  | cons c cs ih =>
    by_cases hc : isspace c = true
    · simp [extractLoop, hc]
    · simp [extractLoop, hc, ih]

theorem extractName_eq_firstToken (line : List Char) : extractName line = firstToken line := by
  simp [extractName, firstToken, skipws_eq_dropWhile, extractLoop_eq_takeWhile]

theorem readLoop_eof (fuel : Nat) (buf : List Char) (fb : Bool) (labels : List (List Char)) :
    readLoop fuel { buf := buf, eofbit := true, failbit := fb } labels = some labels := by
  cases fuel <;> simp [readLoop, IStream.eof]

theorem readLoop_eq (fuel : Nat) (cs : List Char) (labels : List (List Char))
    (h : cs.length < fuel) :
    readLoop fuel (IStream.ofChars cs) labels =
      some (labels ++ (splitLines cs).map firstToken) := by
  induction fuel generalizing cs labels with
  | zero => omega
  | succ fuel ih =>
    rw [splitLines_eq_getlineLoop]
    simp only [readLoop, IStream.ofChars, IStream.eof, getline, IStream.good, Bool.not_false,
      Bool.and_self, if_true, Bool.false_eq_true, if_false]
    by_cases he : (getlineLoop cs []).2.2 = true
    · simp [he, readLoop_eof, extractName_eq_firstToken]
    · have he2 : (getlineLoop cs []).2.2 = false := by simpa using he
      have hlen := getlineLoop_rest_length cs [] he2
      have hne : cs.isEmpty = false := by
        cases cs with
        | nil => simp [getlineLoop] at he2
        | cons c cs => rfl
      have := ih (getlineLoop cs []).2.1 (labels ++ [extractName (getlineLoop cs []).1])
        (by omega)
      simp only [IStream.ofChars, extractName_eq_firstToken] at this
      simp [he2, hne, this, extractName_eq_firstToken]

theorem getLabelsFromFile_eq (labels : List (List Char)) (content : List Char) :
    getLabelsFromFile labels (some content) =
      some (labels ++ (splitLines content).map firstToken) := by
  simp only [getLabelsFromFile]
  exact readLoop_eq _ _ _ (by omega)

theorem getLabelsFromFile_isSome (labels : List (List Char)) (file : Option (List Char)) :
    (getLabelsFromFile labels file).isSome = true := by
  cases file with
  | none => rfl
  | some content => simp [getLabelsFromFile_eq]

theorem splitLines_ne_nil (cs : List Char) : splitLines cs ≠ [] := by
  cases cs with
  | nil => simp [splitLines]
  | cons c cs =>
    by_cases hc : c = '\n'
    · simp [splitLines, hc]
    · simp only [splitLines, hc, if_false]
      split <;> simp

theorem splitLines_eq_splitOn (cs : List Char) : splitLines cs = cs.splitOn '\n' := by
  induction cs with
  | nil => simp [splitLines, List.splitOn, List.splitOnP_nil]
  | cons c cs ih =>
    rw [List.splitOn, List.splitOnP_cons]
    by_cases hc : c = '\n'
    · simp only [splitLines, hc, if_true, beq_self_eq_true]
      rw [ih]; rfl
    · have hc2 : (c == '\n') = false := by simpa using hc
      simp only [splitLines, hc, if_false, hc2, Bool.false_eq_true]
      rw [← List.splitOn, ← ih]
      cases h : splitLines cs with
      | nil => exact absurd h (splitLines_ne_nil cs)
      | cons l ls => simp [List.modifyHead]

theorem splitLines_length (cs : List Char) :
    (splitLines cs).length = cs.count '\n' + 1 := by
  induction cs with
  | nil => simp [splitLines]
  | cons c cs ih =>
    by_cases hc : c = '\n'
    · simp [splitLines, hc, ih]
    · have hc2 : ¬ (c == '\n') = true := by simpa using hc
      simp only [splitLines, hc, if_false]
      rw [List.count_cons_of_ne (Ne.symm hc), ← ih]
      split
      · rename_i h; exact absurd h (splitLines_ne_nil cs)
      · rename_i l ls h; simp [h]

theorem splitLines_append_newline (cs : List Char) :
    splitLines (cs ++ ['\n']) = splitLines cs ++ [[]] := by
  induction cs with
  | nil => simp [splitLines]
  | cons c cs ih =>
    by_cases hc : c = '\n'
    · simp [splitLines, hc, ih]
    · simp only [List.cons_append, splitLines, hc, if_false]
      have ih2 : splitLines (cs.append ['\n']) = splitLines cs ++ [[]] := ih
      rw [ih2]
      cases h : splitLines cs with
      | nil => exact absurd h (splitLines_ne_nil cs)
      | cons l ls => simp

/-- C2: for every openable label file, `getLabelsFromFile` started from an
empty list returns a list that is at least as long as the number of non-empty
lines of the file and whose entry `i` is the first whitespace-delimited token
of line `i`, for every line index `i` of the file. -/
theorem getLabelsFromFile_first_tokens (content : List Char) :
    ∃ labels, getLabelsFromFile [] (some content) = some labels ∧
      nonEmptyLines content ≤ labels.length ∧
      ∀ i : Nat, labels[i]? = ((splitLines content)[i]?).map firstToken := by
  refine ⟨(splitLines content).map firstToken, ?_, ?_, ?_⟩
  · simpa using getLabelsFromFile_eq [] content
  · simpa [nonEmptyLines] using
      @List.countP_le_length _ (fun l => !l.isEmpty) (splitLines content)
  · intro i
    exact List.getElem?_map firstToken (splitLines content) i

/-- C10: for an openable file with content `c`, `getLabelsFromFile` keeps the
entries already in the list and appends exactly (number of newlines in `c`) + 1
entries: a single empty string for a zero-byte file, and one more trailing
empty string when a newline is added at the end of `c`. The list comes back
unchanged only when the file cannot be opened. -/
theorem getLabelsFromFile_appends (labels : List (List Char)) (content : List Char) :
    (∃ added, getLabelsFromFile labels (some content) = some (labels ++ added) ∧
        added.length = content.count '\n' + 1 ∧
        getLabelsFromFile labels (some (content ++ ['\n'])) = some (labels ++ added ++ [[]])) ∧
    getLabelsFromFile labels (some []) = some (labels ++ [[]]) ∧
    (∀ file, getLabelsFromFile labels file = some labels ↔ file = none) := by
  refine ⟨⟨(splitLines content).map firstToken, getLabelsFromFile_eq _ _, ?_, ?_⟩, ?_, ?_⟩
  · simp [splitLines_length]
  · rw [getLabelsFromFile_eq, splitLines_append_newline]
    simp [firstToken]
  · rw [getLabelsFromFile_eq]
    simp [splitLines, firstToken]
  · intro file
    cases file with
    | none => simp [getLabelsFromFile]
    | some c =>
      rw [getLabelsFromFile_eq]
      have := splitLines_ne_nil c
      simp [this]

/-- Label check of `main` on a label file that cannot be opened: the run ends
there with `EXIT_FAILURE`, before the sink is opened and before any frame is
read, network loaded or forward pass run. -/
theorem main_missing_label_file (fuel : Nat) (w : World) (inputFile outputFile : List Char)
    (useCuda : Bool) (hc : w.commandLine = CommandLine.options inputFile outputFile useCuda)
    (ho : w.captureOpened = true) (hl : w.labelFile = none) :
    main fuel w =
      { exit := some EXIT_FAILURE, stderr := ["Failed to read file!".toList], readCalls := 0,
        framesRead := 0, netLoads := 0, forwardPasses := [], sink := none, written := [],
        fault := none } := by
  simp [main, hc, ho, hl, getLabelsFromFile, Outcome.start]

/-- C1 (failing input): with a zero-byte label file the label list is the one
empty string, the label check of `main` passes, and the run goes on to read a
frame, load the network and run a forward pass; here it ends only when the
one-frame source is exhausted. -/
theorem main_empty_label_file_runs_inference :
    getLabelsFromFile [] (some []) = some [[]] ∧
    main 2 (World.running (some []) true 0 true (quietTick 1 640 480)) =
      { exit := some EXIT_FAILURE, stderr := ["Video camera is disconnected!".toList],
        readCalls := 2, framesRead := 1, netLoads := 1, forwardPasses := [Net.loaded],
        sink := some (500, 500),
        written := [{ cols := 500, rows := 500, origin := 0,
                      drawn := statusLine "run time: 0.500s".toList false false 500 500 }],
        fault := none } := by
  decide


/-! ## Detection loop -/

theorem toInt_of_inIntRange (a : Dyadic) (h : inIntRange a) : toInt a = some (trunc a) := by
  unfold toInt
  exact if_pos h

theorem toInt_of_not_inIntRange (a : Dyadic) (h : ¬ inIntRange a) : toInt a = none := by
  unfold toInt
  exact if_neg h

theorem toSizeT_of_nonneg (a : Dyadic) (h : 0 ≤ trunc a) :
    toSizeT a = some (trunc a).toNat := by
  unfold toSizeT
  rw [if_neg (by omega)]

theorem toSizeT_of_neg (a : Dyadic) (h : ¬ 0 ≤ trunc a) : toSizeT a = none := by
  unfold toSizeT
  rw [if_pos (by omega)]

theorem getElem?_isSome_iff_indexInBounds (labels : List (List Char)) (r : Row)
    (h0 : 0 ≤ trunc r.classId) :
    (∃ text, labels[(trunc r.classId).toNat]? = some text) ↔
      trunc r.classId < (labels.length : Int) := by
  have hn : ((trunc r.classId).toNat : Int) = trunc r.classId := Int.toNat_of_nonneg h0
  constructor
  · rintro ⟨a, ha⟩
    have := (List.getElem?_eq_some_iff.mp ha).1
    omega
  · intro h2
    have hlt : (trunc r.classId).toNat < labels.length := by omega
    exact ⟨_, List.getElem?_eq_getElem hlt⟩

/-- The four ways a row that passed the confidence test is handled. -/
theorem drawRow_cases (labels : List (List Char)) (cols rows : Int) (r : Row) :
    (¬ 0 ≤ trunc r.classId ∧ drawRow labels cols rows r = ([], some Fault.indexConversion)) ∨
    (0 ≤ trunc r.classId ∧ ¬ r.pixelsInRange cols rows ∧
      drawRow labels cols rows r = ([], some Fault.intConversion)) ∨
    (0 ≤ trunc r.classId ∧ r.pixelsInRange cols rows ∧
      ¬ trunc r.classId < (labels.length : Int) ∧
      drawRow labels cols rows r =
        ((boxCalls labels cols rows r).take 1, some Fault.labelOutOfBounds)) ∨
    (r.indexInBounds labels ∧ r.pixelsInRange cols rows ∧
      drawRow labels cols rows r = (boxCalls labels cols rows r, none)) := by
  by_cases h0 : 0 ≤ trunc r.classId
  · by_cases hpx : r.pixelsInRange cols rows
    · obtain ⟨h1, h2, h3, h4⟩ := hpx
      by_cases hlt : trunc r.classId < (labels.length : Int)
      · obtain ⟨text, ht⟩ := (getElem?_isSome_iff_indexInBounds labels r h0).mpr hlt
        refine Or.inr (Or.inr (Or.inr ⟨⟨h0, hlt⟩, ⟨h1, h2, h3, h4⟩, ?_⟩))
        simp only [drawRow, toSizeT_of_nonneg _ h0, toInt_of_inIntRange _ h1,
          toInt_of_inIntRange _ h2, toInt_of_inIntRange _ h3, toInt_of_inIntRange _ h4, ht,
          boxCalls, Option.getD_some]
      · have hnone : labels[(trunc r.classId).toNat]? = none := by
          cases hl : labels[(trunc r.classId).toNat]? with
          | none => rfl
          | some text =>
            exact absurd ((getElem?_isSome_iff_indexInBounds labels r h0).mp ⟨text, hl⟩) hlt
        refine Or.inr (Or.inr (Or.inl ⟨h0, ⟨h1, h2, h3, h4⟩, hlt, ?_⟩))
        simp only [drawRow, toSizeT_of_nonneg _ h0, toInt_of_inIntRange _ h1,
          toInt_of_inIntRange _ h2, toInt_of_inIntRange _ h3, toInt_of_inIntRange _ h4, hnone,
          boxCalls, List.take_succ_cons, List.take_zero]
    · refine Or.inr (Or.inl ⟨h0, hpx, ?_⟩)
      simp only [drawRow, toSizeT_of_nonneg _ h0]
      split
      · rename_i x y width height e1 e2 e3 e4
        exfalso
        apply hpx
        refine ⟨?_, ?_, ?_, ?_⟩
        · by_contra hc; rw [toInt_of_not_inIntRange _ hc] at e1; cases e1
        · by_contra hc; rw [toInt_of_not_inIntRange _ hc] at e2; cases e2
        · by_contra hc; rw [toInt_of_not_inIntRange _ hc] at e3; cases e3
        · by_contra hc; rw [toInt_of_not_inIntRange _ hc] at e4; cases e4
      · rfl
  · exact Or.inl ⟨h0, by simp only [drawRow, toSizeT_of_neg _ h0]⟩

theorem drawRow_wellDefined (labels : List (List Char)) (cols rows : Int) (r : Row)
    (hi : r.indexInBounds labels) (hpx : r.pixelsInRange cols rows) :
    drawRow labels cols rows r = (boxCalls labels cols rows r, none) := by
  rcases drawRow_cases labels cols rows r with h | h | h | h
  · exact absurd hi.1 h.1
  · exact absurd hpx h.2.1
  · exact absurd hi.2 h.2.2.1
  · exact h.2.2

theorem detectionLoop_cons_skip (labels : List (List Char)) (cols rows : Int) (r : Row)
    (rest : List Row) (h : ¬ CONFIDENCE_THRESHOLD.lt r.confidence = true) :
    detectionLoop labels cols rows (r :: rest) = detectionLoop labels cols rows rest := by
  have h1 : CONFIDENCE_THRESHOLD.lt r.confidence = false := by simpa using h
  simp only [detectionLoop, h1, Bool.false_eq_true, if_false]

theorem detectionLoop_cons_fault (labels : List (List Char)) (cols rows : Int) (r : Row)
    (rest : List Row) (h : CONFIDENCE_THRESHOLD.lt r.confidence = true) (calls : List DrawCmd)
    (fault : Fault) (hd : drawRow labels cols rows r = (calls, some fault)) :
    detectionLoop labels cols rows (r :: rest) = (calls, some fault) := by
  simp only [detectionLoop, h, if_true, hd]

theorem detectionLoop_cons_drawn (labels : List (List Char)) (cols rows : Int) (r : Row)
    (rest : List Row) (h : CONFIDENCE_THRESHOLD.lt r.confidence = true) (calls : List DrawCmd)
    (hd : drawRow labels cols rows r = (calls, none)) :
    detectionLoop labels cols rows (r :: rest) =
      (calls ++ (detectionLoop labels cols rows rest).1,
        (detectionLoop labels cols rows rest).2) := by
  simp only [detectionLoop, h, if_true, hd]

theorem detectionLoop_eq_flatMap (labels : List (List Char)) (cols rows : Int)
    (score : List Row)
    (h : ∀ r ∈ score, CONFIDENCE_THRESHOLD.lt r.confidence = true →
      r.indexInBounds labels ∧ r.pixelsInRange cols rows) :
    detectionLoop labels cols rows score =
      ((score.filter Row.passes).flatMap (boxCalls labels cols rows), none) := by
  induction score with
  | nil => rfl
  | cons r rest ih =>
    have ih2 := ih (fun p hp => h p (List.mem_cons_of_mem _ hp))
    by_cases hc : CONFIDENCE_THRESHOLD.lt r.confidence = true
    · obtain ⟨hi, hpx⟩ := h r (List.mem_cons_self _ _) hc
      rw [detectionLoop_cons_drawn _ _ _ _ _ hc _ (drawRow_wellDefined _ _ _ _ hi hpx), ih2]
      have hp : r.passes = true := hc
      simp [List.filter_cons, hp]
    · rw [detectionLoop_cons_skip _ _ _ _ _ hc, ih2]
      have hp : ¬ r.passes = true := hc
      simp [List.filter_cons, hp]

theorem Dyadic.le_iff_not_lt (a b : Dyadic) : a.le b = !b.lt a := by
  simp only [Dyadic.le, Dyadic.lt]
  by_cases h : b.mant * 2 ^ a.scale < a.mant * 2 ^ b.scale
  · simp [h, Int.not_le.mpr h]
  · simp [h, Int.not_lt.mp h]

theorem flatMap_boxCalls_countP (labels : List (List Char)) (cols rows : Int) (l : List Row) :
    (l.flatMap (boxCalls labels cols rows)).countP DrawCmd.isRectangle = l.length ∧
    (l.flatMap (boxCalls labels cols rows)).countP DrawCmd.isPutText = l.length := by
  induction l with
  | nil => simp
  | cons r rest ih =>
    simp only [List.flatMap_cons, List.countP_append, ih, List.length_cons]
    constructor
    · simp [boxCalls, List.countP_cons, DrawCmd.isRectangle]; omega
    · simp [boxCalls, List.countP_cons, DrawCmd.isPutText]; omega

theorem detectionLoop_below_threshold (labels : List (List Char)) (cols rows : Int)
    (score : List Row) :
    detectionLoop labels cols rows
      (score.filter fun r => r.confidence.le CONFIDENCE_THRESHOLD) = ([], none) := by
  induction score with
  | nil => rfl
  | cons r rest ih =>
    by_cases hc : CONFIDENCE_THRESHOLD.lt r.confidence = true
    · have : r.confidence.le CONFIDENCE_THRESHOLD = false := by
        rw [Dyadic.le_iff_not_lt, hc]; rfl
      simp only [List.filter_cons, this, Bool.false_eq_true, if_false]
      exact ih
    · have : r.confidence.le CONFIDENCE_THRESHOLD = true := by
        rw [Dyadic.le_iff_not_lt]; simpa using hc
      simp only [List.filter_cons, this, if_true]
      rw [detectionLoop_cons_skip _ _ _ _ _ hc]
      exact ih

/-- C3 (as stated, refuted): with two labels, on a `500 x 500` frame, the
tensor `[oobRow, sampleRow]` has two rows above the threshold, but the first
has class index 2: its rectangle is drawn, the unchecked `labels[2]` is then
read out of bounds, and the loop goes no further. One rectangle and no label
are drawn for two rows above the threshold. -/
theorem detection_stops_at_out_of_range_label :
    CONFIDENCE_THRESHOLD.lt oobRow.confidence = true ∧
    CONFIDENCE_THRESHOLD.lt sampleRow.confidence = true ∧
    detectionLoop ["background".toList, "aeroplane".toList] 500 500 [oobRow, sampleRow] =
      ([DrawCmd.rectangle 101 101 218 218 (0, 0, 255)], some Fault.labelOutOfBounds) ∧
    (detectionLoop ["background".toList, "aeroplane".toList] 500 500
      [oobRow, sampleRow]).1.countP DrawCmd.isRectangle = 1 ∧
    (detectionLoop ["background".toList, "aeroplane".toList] 500 500
      [oobRow, sampleRow]).1.countP DrawCmd.isPutText = 0 ∧
    [oobRow, sampleRow].countP (fun r => CONFIDENCE_THRESHOLD.lt r.confidence) = 2 := by
  decide

/-- C3 (amended): on every detection tensor and frame size for which every
row above the threshold has its class index within the label list and its
pixel values within the range of `int`, the detection loop runs to its end
and makes, for the rows with confidence above the threshold and in the
tensor's row order, one `rectangle` call followed by one `putText` call each,
both at the same top-left point; nothing is merged or dropped, so the number
of rectangles (and of labels) equals the number of rows above the threshold.
Rows with confidence at or below the threshold draw nothing. -/
theorem detectionLoop_one_box_per_passing_row (labels : List (List Char)) (cols rows : Int)
    (score : List Row)
    (h : ∀ r ∈ score, CONFIDENCE_THRESHOLD.lt r.confidence = true →
      (0 ≤ trunc r.classId ∧ trunc r.classId < (labels.length : Int)) ∧
        r.pixelsInRange cols rows) :
    detectionLoop labels cols rows score =
      ((score.filter fun r => CONFIDENCE_THRESHOLD.lt r.confidence).flatMap
        (boxCalls labels cols rows), none) ∧
    (∀ r : Row, ∃ x y width height text,
      boxCalls labels cols rows r =
        [DrawCmd.rectangle x y width height (0, 0, 255),
         DrawCmd.putText text x y Font.HERSHEY_COMPLEX_SMALL (255, 0, 0)]) ∧
    detectionLoop labels cols rows
      (score.filter fun r => r.confidence.le CONFIDENCE_THRESHOLD) = ([], none) ∧
    (detectionLoop labels cols rows score).1.countP DrawCmd.isRectangle =
      score.countP (fun r => CONFIDENCE_THRESHOLD.lt r.confidence) ∧
    (detectionLoop labels cols rows score).1.countP DrawCmd.isPutText =
      score.countP (fun r => CONFIDENCE_THRESHOLD.lt r.confidence) := by
  have heq := detectionLoop_eq_flatMap labels cols rows score h
  have hcount := flatMap_boxCalls_countP labels cols rows (score.filter Row.passes)
  refine ⟨heq, fun r => ⟨_, _, _, _, _, rfl⟩, detectionLoop_below_threshold labels cols rows score,
    ?_, ?_⟩
  · rw [heq]
    exact hcount.1.trans (List.countP_eq_length_filter Row.passes score).symm
  · rw [heq]
    exact hcount.2.trans (List.countP_eq_length_filter Row.passes score).symm

/-- The one-row tensor `[sampleRow]` with two labels on a `500 x 500` frame:
the row is well defined, and the loop draws its rectangle and its label. -/
theorem detectionLoop_one_box_per_passing_row_witness :
    detectionLoop ["background".toList, "aeroplane".toList] 500 500 [sampleRow] =
      (([sampleRow].filter fun r => CONFIDENCE_THRESHOLD.lt r.confidence).flatMap
        (boxCalls ["background".toList, "aeroplane".toList] 500 500), none) :=
  (detectionLoop_one_box_per_passing_row ["background".toList, "aeroplane".toList] 500 500
    [sampleRow] (by
      intro r hr _
      rw [List.mem_singleton.mp hr]
      unfold Row.pixelsInRange inIntRange
      decide)).1

theorem boxCalls_isInfix (labels : List (List Char)) (cols rows : Int) (l : List Row) (r : Row)
    (hr : r ∈ l) :
    List.IsInfix (boxCalls labels cols rows r) (l.flatMap (boxCalls labels cols rows)) := by
  induction l with
  | nil => simp at hr
  | cons r0 rest ih =>
    rw [List.flatMap_cons]
    rcases List.mem_cons.mp hr with h | h
    · subst h
      exact ⟨[], rest.flatMap (boxCalls labels cols rows), by simp⟩
    · obtain ⟨s, t, hst⟩ := ih h
      exact ⟨boxCalls labels cols rows r0 ++ s, t, by simp [← hst]⟩

/-- C4 (as stated, refuted): on a `500 x 500` frame the row `sampleRow` passes
the confidence test and is drawn as the rectangle with top-left `(101, 101)`
and size `218 x 218`, so its bottom-right corner is `(319, 319)`, while the
normalized bottom-right corner times the frame size, converted to `int`, is
`(320, 320)`. -/
theorem drawn_bottom_right_differs :
    CONFIDENCE_THRESHOLD.lt sampleRow.confidence = true ∧
    detectionLoop ["background".toList, "aeroplane".toList] 500 500 [sampleRow] =
      ([DrawCmd.rectangle 101 101 218 218 (0, 0, 255),
        DrawCmd.putText "aeroplane".toList 101 101 Font.HERSHEY_COMPLEX_SMALL (255, 0, 0)],
       none) ∧
    toInt (fmul sampleRow.xmax (Dyadic.ofInt 500)) = some 320 ∧
    toInt (fmul sampleRow.ymax (Dyadic.ofInt 500)) = some 320 ∧
    (101 : Int) + 218 ≠ 320 := by
  decide

/-- C4 (amended): on a tensor and frame of `cols x rows` pixels for which every
row above the threshold has its class index within the label list and its
pixel values within the range of `int`, the loop runs to its end and draws,
for every row with confidence above the threshold, the rectangle whose
top-left corner is `(int(xmin*cols), int(ymin*rows))` and whose width and
height are `int(xmax*cols - xmin*cols)` and `int(ymax*rows - ymin*rows)`,
immediately followed by the text of `labels[classId]` anchored at that same
top-left corner. -/
theorem drawn_box_geometry (labels : List (List Char)) (cols rows : Int) (score : List Row)
    (r : Row)
    (h : ∀ p ∈ score, CONFIDENCE_THRESHOLD.lt p.confidence = true →
      (0 ≤ trunc p.classId ∧ trunc p.classId < (labels.length : Int)) ∧
        p.pixelsInRange cols rows)
    (hr : r ∈ score) (hp : CONFIDENCE_THRESHOLD.lt r.confidence = true) :
    (detectionLoop labels cols rows score).2 = none ∧
    ∃ text, labels[(trunc r.classId).toNat]? = some text ∧
      toInt (fmul r.xmin (Dyadic.ofInt cols)) = some (trunc (fmul r.xmin (Dyadic.ofInt cols))) ∧
      toInt (fmul r.ymin (Dyadic.ofInt rows)) = some (trunc (fmul r.ymin (Dyadic.ofInt rows))) ∧
      List.IsInfix
        [DrawCmd.rectangle
            (trunc (fmul r.xmin (Dyadic.ofInt cols)))
            (trunc (fmul r.ymin (Dyadic.ofInt rows)))
            (trunc (fsub (fmul r.xmax (Dyadic.ofInt cols)) (fmul r.xmin (Dyadic.ofInt cols))))
            (trunc (fsub (fmul r.ymax (Dyadic.ofInt rows)) (fmul r.ymin (Dyadic.ofInt rows))))
            (0, 0, 255),
         DrawCmd.putText text
            (trunc (fmul r.xmin (Dyadic.ofInt cols)))
            (trunc (fmul r.ymin (Dyadic.ofInt rows)))
            Font.HERSHEY_COMPLEX_SMALL (255, 0, 0)]
        (detectionLoop labels cols rows score).1 := by
  have heq := detectionLoop_eq_flatMap labels cols rows score h
  obtain ⟨⟨h0, hlt⟩, hpx⟩ := h r hr hp
  obtain ⟨text, ht⟩ := (getElem?_isSome_iff_indexInBounds labels r h0).mpr hlt
  refine ⟨by rw [heq], text, ht, toInt_of_inIntRange _ hpx.1, toInt_of_inIntRange _ hpx.2.1, ?_⟩
  rw [heq]
  have hmem : r ∈ score.filter Row.passes := List.mem_filter.mpr ⟨hr, hp⟩
  have := boxCalls_isInfix labels cols rows (score.filter Row.passes) r hmem
  simpa [boxCalls, ht] using this

/-- The box geometry at the row `sampleRow`, in a one-row tensor on a
`500 x 500` frame: rectangle at `(101, 101)` of size `218 x 218`, then the
label `aeroplane` at `(101, 101)`. -/
theorem drawn_box_geometry_witness :
    (detectionLoop ["background".toList, "aeroplane".toList] 500 500 [sampleRow]).2 = none :=
  (drawn_box_geometry ["background".toList, "aeroplane".toList] 500 500 [sampleRow] sampleRow
    (by
      intro r hr _
      rw [List.mem_singleton.mp hr]
      unfold Row.pixelsInRange inIntRange
      decide)
    (by decide) (by decide)).1

theorem detectionLoop_no_label_fault (labels : List (List Char)) (cols rows : Int)
    (score : List Row)
    (h : ∀ r ∈ score, CONFIDENCE_THRESHOLD.lt r.confidence = true →
      0 ≤ trunc r.classId ∧ trunc r.classId < (labels.length : Int)) :
    (detectionLoop labels cols rows score).2 ≠ some Fault.indexConversion ∧
    (detectionLoop labels cols rows score).2 ≠ some Fault.labelOutOfBounds := by
  induction score with
  | nil => simp [detectionLoop]
  | cons r rest ih =>
    have ih2 := ih (fun p hp => h p (List.mem_cons_of_mem _ hp))
    by_cases hc : CONFIDENCE_THRESHOLD.lt r.confidence = true
    · obtain ⟨h0, hlt⟩ := h r (List.mem_cons_self _ _) hc
      rcases drawRow_cases labels cols rows r with hd | hd | hd | hd
      · exact absurd h0 hd.1
      · rw [detectionLoop_cons_fault _ _ _ _ _ hc _ _ hd.2.2]
        simp
      · exact absurd hlt hd.2.2.1
      · rw [detectionLoop_cons_drawn _ _ _ _ _ hc _ hd.2.2]
        exact ih2
    · rw [detectionLoop_cons_skip _ _ _ _ _ hc]
      exact ih2

theorem detectionLoop_indices_of_no_label_fault (labels : List (List Char)) (cols rows : Int)
    (score : List Row)
    (hpx : ∀ r ∈ score, CONFIDENCE_THRESHOLD.lt r.confidence = true → r.pixelsInRange cols rows)
    (h1 : (detectionLoop labels cols rows score).2 ≠ some Fault.indexConversion)
    (h2 : (detectionLoop labels cols rows score).2 ≠ some Fault.labelOutOfBounds) :
    ∀ r ∈ score, CONFIDENCE_THRESHOLD.lt r.confidence = true →
      0 ≤ trunc r.classId ∧ trunc r.classId < (labels.length : Int) := by
  induction score with
  | nil => simp
  | cons r rest ih =>
    have hpx2 := fun p hp => hpx p (List.mem_cons_of_mem _ hp)
    by_cases hc : CONFIDENCE_THRESHOLD.lt r.confidence = true
    · rcases drawRow_cases labels cols rows r with hd | hd | hd | hd
      · rw [detectionLoop_cons_fault _ _ _ _ _ hc _ _ hd.2] at h1
        exact absurd rfl h1
      · exact absurd (hpx r (List.mem_cons_self _ _) hc) hd.2.1
      · rw [detectionLoop_cons_fault _ _ _ _ _ hc _ _ hd.2.2.2] at h2
        exact absurd rfl h2
      · rw [detectionLoop_cons_drawn _ _ _ _ _ hc _ hd.2.2] at h1 h2
        intro p hp hpc
        rcases List.mem_cons.mp hp with hp | hp
        · subst hp; exact hd.1
        · exact ih hpx2 h1 h2 p hp hpc
    · rw [detectionLoop_cons_skip _ _ _ _ _ hc] at h1 h2
      intro p hp hpc
      rcases List.mem_cons.mp hp with hp | hp
      · subst hp; exact absurd hpc hc
      · exact ih hpx2 h1 h2 p hp hpc

theorem cornerRow_drawRow (labels : List (List Char)) (cols rows : Int) :
    drawRow labels cols rows (cornerRow (labels.length : Int)) =
      ([DrawCmd.rectangle 0 0 0 0 (0, 0, 255)], some Fault.labelOutOfBounds) := by
  have hidx : trunc { mant := (labels.length : Int), scale := 0 } = (labels.length : Int) := by
    simp [trunc]
  have hx : fmul { mant := 0, scale := 0 } (Dyadic.ofInt cols) = { mant := 0, scale := 0 } := by
    simp only [fmul, Dyadic.mul, Dyadic.ofInt, zero_mul, add_zero]
    decide
  have hy : fmul { mant := 0, scale := 0 } (Dyadic.ofInt rows) = { mant := 0, scale := 0 } := by
    simp only [fmul, Dyadic.mul, Dyadic.ofInt, zero_mul, add_zero]
    decide
  have hs : fsub { mant := 0, scale := 0 } { mant := 0, scale := 0 } = { mant := 0, scale := 0 } := by
    decide
  have hz : toInt { mant := 0, scale := 0 } = some 0 := by decide
  have hsz : toSizeT { mant := (labels.length : Int), scale := 0 } = some labels.length := by
    rw [toSizeT_of_nonneg _ (by rw [hidx]; omega), hidx]
    simp
  simp only [drawRow, cornerRow, hx, hy, hs, hz, hsz]
  simp

/-- C9: if every row with confidence above the threshold has a non-negative
class index below the length of the label list, the detection loop never
reads a label out of bounds (nor converts a negative index); conversely, on a
tensor whose pixel values all convert to `int`, a loop that met no such
undefined index or lookup had all these indices in bounds; and for every label
list there is a row above the threshold, with class index equal to the
length of the list, on which the loop draws the rectangle and then reads the
label out of bounds. -/
theorem label_lookup_in_bounds_iff (labels : List (List Char)) (cols rows : Int)
    (score : List Row) :
    ((∀ r ∈ score, CONFIDENCE_THRESHOLD.lt r.confidence = true →
        0 ≤ trunc r.classId ∧ trunc r.classId < (labels.length : Int)) →
      (detectionLoop labels cols rows score).2 ≠ some Fault.indexConversion ∧
      (detectionLoop labels cols rows score).2 ≠ some Fault.labelOutOfBounds) ∧
    ((∀ r ∈ score, CONFIDENCE_THRESHOLD.lt r.confidence = true → r.pixelsInRange cols rows) →
      (detectionLoop labels cols rows score).2 ≠ some Fault.indexConversion →
      (detectionLoop labels cols rows score).2 ≠ some Fault.labelOutOfBounds →
      ∀ r ∈ score, CONFIDENCE_THRESHOLD.lt r.confidence = true →
        0 ≤ trunc r.classId ∧ trunc r.classId < (labels.length : Int)) ∧
    (∃ r : Row, CONFIDENCE_THRESHOLD.lt r.confidence = true ∧
      (labels.length : Int) ≤ trunc r.classId ∧
      detectionLoop labels cols rows [r] =
        ([DrawCmd.rectangle 0 0 0 0 (0, 0, 255)], some Fault.labelOutOfBounds)) := by
  refine ⟨detectionLoop_no_label_fault labels cols rows score,
    detectionLoop_indices_of_no_label_fault labels cols rows score, ?_⟩
  have hp : CONFIDENCE_THRESHOLD.lt (cornerRow (labels.length : Int)).confidence = true := by
    show CONFIDENCE_THRESHOLD.lt { mant := 7, scale := 3 } = true
    decide
  refine ⟨cornerRow (labels.length : Int), hp, by simp [cornerRow, trunc], ?_⟩
  exact detectionLoop_cons_fault _ _ _ _ _ hp _ _ (cornerRow_drawRow labels cols rows)

/-- With two labels, the row `sampleRow` (class 1) satisfies the bound, and
the loop over it meets no undefined index conversion or label lookup. -/
theorem label_lookup_in_bounds_iff_witness :
    (detectionLoop ["background".toList, "aeroplane".toList] 500 500 [sampleRow]).2 ≠
        some Fault.indexConversion ∧
    (detectionLoop ["background".toList, "aeroplane".toList] 500 500 [sampleRow]).2 ≠
        some Fault.labelOutOfBounds :=
  (label_lookup_in_bounds_iff ["background".toList, "aeroplane".toList] 500 500 [sampleRow]).1
    (by
      intro r hr _
      rw [List.mem_singleton.mp hr]
      decide)

/-! ## Run-time string -/

theorem sixDigits_take_three (n : Nat) :
    (sixDigits (n % 1000000)).take 3 = threeDigits (n / 1000 % 1000) := by
  simp only [sixDigits, threeDigits, List.take_succ_cons, List.take_zero]
  have h1 : n % 1000000 / 100000 % 10 = n / 1000 % 1000 / 100 % 10 := by omega
  have h2 : n % 1000000 / 10000 % 10 = n / 1000 % 1000 / 10 % 10 := by omega
  have h3 : n % 1000000 / 1000 % 10 = n / 1000 % 1000 % 10 := by omega
  rw [h1, h2, h3]

/-- C5 (as stated, refuted): for an elapsed time of half a second the string
drawn is `run time: 0.500s`, with three digits after the decimal point, while
the time truncated to two decimal places gives `run time: 0.50s`. -/
theorem runTimeString_not_two_decimals :
    runTimeString { mant := 1, scale := 1 } = "run time: 0.500s".toList ∧
    "run time: ".toList ++ truncTwoDecimals { mant := 1, scale := 1 } ++ "s".toList =
      "run time: 0.50s".toList ∧
    runTimeString { mant := 1, scale := 1 } ≠
      "run time: ".toList ++ truncTwoDecimals { mant := 1, scale := 1 } ++ "s".toList := by
  decide

/-- C5 (amended): for every non-negative elapsed time `t`, the run-time string
is `run time: ` followed by the six-decimal rendering of `t` (`t` rounded to
millionths) with its last three characters erased, that is the integer part,
the point and exactly three digits, followed by `s`. -/
theorem runTimeString_three_decimals (t : Dyadic) (ht : 0 ≤ t.mant) :
    runTimeString t =
      "run time: ".toList ++ decimal (millionths t / 1000000) ++ ['.'] ++
        threeDigits (millionths t / 1000 % 1000) ++ ['s'] := by
  have hs : ¬ t.mant < 0 := by omega
  simp only [runTimeString, to_string_double, hs, if_false, List.nil_append]
  have hlen : (sixDigits (millionths t % 1000000)).length = 6 := rfl
  have hassoc : "run time: ".toList ++
        (decimal (millionths t / 1000000) ++ ['.'] ++ sixDigits (millionths t % 1000000)) =
      ("run time: ".toList ++ decimal (millionths t / 1000000) ++ ['.']) ++
        sixDigits (millionths t % 1000000) := by simp
  rw [hassoc]
  have hn : (("run time: ".toList ++ decimal (millionths t / 1000000) ++ ['.']) ++
        sixDigits (millionths t % 1000000)).length - 3 =
      ("run time: ".toList ++ decimal (millionths t / 1000000) ++ ['.']).length + 3 := by
    rw [List.length_append, hlen]
    omega
  rw [hn, List.take_append, sixDigits_take_three]
  rfl

/-- The run-time string at an elapsed time of `0.0078125` seconds, whose
six-decimal rendering is `0.007812`. -/
theorem runTimeString_three_decimals_witness :
    runTimeString { mant := 1, scale := 7 } =
      "run time: ".toList ++ decimal (millionths { mant := 1, scale := 7 } / 1000000) ++ ['.'] ++
        threeDigits (millionths { mant := 1, scale := 7 } / 1000 % 1000) ++ ['s'] :=
  runTimeString_three_decimals { mant := 1, scale := 7 } (by decide)


/-! ## Main loop -/

theorem processFrame_net (labels : List (List Char)) (ce nd : Bool) (img : Image)
    (score : List Row) (t : Dyadic) :
    (processFrame labels ce nd img score t).1 = configureNet ce Net.loaded := by
  simp only [processFrame]
  split <;> rfl

theorem processFrame_completed (labels : List (List Char)) (ce nd : Bool) (img : Image)
    (score : List Row) (t : Dyadic) (net : Net) (m : Mat)
    (h : processFrame labels ce nd img score t = (net, m, none)) :
    m = { cols := WIDTH, rows := HEIGHT, origin := img.origin,
          drawn := (detectionLoop labels WIDTH HEIGHT score).1 ++
            statusLine (runTimeString t) nd ce WIDTH HEIGHT } := by
  simp only [processFrame, resize, List.nil_append] at h
  split at h
  · simp at h
  · rename_i boxes heq
    simp only [Prod.mk.injEq, and_true] at h
    rw [← h.2, heq]

theorem mainLoop_sink (w : World) (labels : List (List Char)) (ce : Bool) (fuel k : Nat)
    (acc : Outcome) : (mainLoop w labels ce fuel k acc).sink = acc.sink := by
  induction fuel generalizing k acc with
  | zero => rfl
  | succ fuel ih =>
    simp only [mainLoop]
    split
    · rfl
    · split
      · rfl
      · split
        · rfl
        · split
          · rfl
          · rw [ih]

theorem mainLoop_written_mem (w : World) (labels : List (List Char)) (ce : Bool) (fuel k : Nat)
    (acc : Outcome) (m : Mat) (hm : m ∈ (mainLoop w labels ce fuel k acc).written) :
    m ∈ acc.written ∨
      ∃ j img net,
        processFrame labels ce w.ndebug img (w.tick j).score (w.tick j).elapsed =
          (net, m, none) := by
  induction fuel generalizing k acc with
  | zero => exact Or.inl hm
  | succ fuel ih =>
    simp only [mainLoop] at hm
    split at hm
    · exact Or.inl hm
    · split at hm
      · exact Or.inl hm
      · rename_i img _
        split at hm
        · exact Or.inl hm
        · split at hm
          · exact Or.inl hm
          · rename_i net source heq
            rcases ih _ _ hm with h | h
            · simp only [List.mem_append, List.mem_singleton] at h
              rcases h with h | h
              · exact Or.inl h
              · exact Or.inr ⟨k, img, net, by rw [h]; exact heq⟩
            · exact Or.inr h

theorem mainLoop_forwardPasses_mem (w : World) (labels : List (List Char)) (ce : Bool)
    (fuel k : Nat) (acc : Outcome) (net : Net)
    (hn : net ∈ (mainLoop w labels ce fuel k acc).forwardPasses) :
    net ∈ acc.forwardPasses ∨ net = configureNet ce Net.loaded := by
  induction fuel generalizing k acc with
  | zero => exact Or.inl hn
  | succ fuel ih =>
    simp only [mainLoop] at hn
    split at hn
    · exact Or.inl hn
    · split at hn
      · exact Or.inl hn
      · rename_i img _
        split at hn
        · exact Or.inl hn
        · have hnet := processFrame_net labels ce w.ndebug img (w.tick k).score (w.tick k).elapsed
          split at hn
          · rename_i net1 _ _ heq
            rw [heq] at hnet
            simp only [List.mem_append, List.mem_singleton] at hn
            rcases hn with h | h
            · exact Or.inl h
            · exact Or.inr (by rw [h]; exact hnet)
          · rename_i net1 _ heq
            rw [heq] at hnet
            rcases ih _ _ hn with h | h
            · simp only [List.mem_append, List.mem_singleton] at h
              rcases h with h | h
              · exact Or.inl h
              · exact Or.inr (by rw [h]; exact hnet)
            · exact Or.inr h

theorem mainLoop_counts (w : World) (labels : List (List Char)) (ce : Bool) (fuel k : Nat)
    (acc : Outcome) :
    (mainLoop w labels ce fuel k acc).written.length + acc.framesRead ≤
        (mainLoop w labels ce fuel k acc).framesRead + acc.written.length ∧
    (mainLoop w labels ce fuel k acc).framesRead + acc.readCalls ≤
        (mainLoop w labels ce fuel k acc).readCalls + acc.framesRead := by
  induction fuel generalizing k acc with
  | zero => simp only [mainLoop]; constructor <;> omega
  | succ fuel ih =>
    simp only [mainLoop]
    split
    · constructor <;> dsimp only <;> omega
    · split
      · constructor <;> dsimp only <;> omega
      · split
        · constructor <;> dsimp only <;> omega
        · split
          · constructor <;> dsimp only <;> omega
          · rename_i net source heq
            have := ih (k + 1) { acc with
                  readCalls := acc.readCalls + 1
                  framesRead := acc.framesRead + 1
                  netLoads := acc.netLoads + 1
                  forwardPasses := acc.forwardPasses ++ [net]
                  written := acc.written ++ [source] }
            simp only [List.length_append, List.length_singleton] at this
            omega

theorem mainLoop_written_le (w : World) (labels : List (List Char)) (ce : Bool) (N : Nat)
    (hN : ∀ k, N ≤ k → (w.tick k).frame = none) (fuel k : Nat) (acc : Outcome) :
    (mainLoop w labels ce fuel k acc).written.length ≤ acc.written.length + (N - k) := by
  induction fuel generalizing k acc with
  | zero => simp [mainLoop]
  | succ fuel ih =>
    simp only [mainLoop]
    split
    · simp
    · split
      · simp
      · rename_i img hf
        have hk : k < N := by
          by_contra hge
          rw [hN k (by omega)] at hf
          cases hf
        split
        · simp
        · split
          · simp
          · refine le_trans (ih (k + 1) _) ?_
            simp only [List.length_append, List.length_singleton]
            omega

theorem main_cases (fuel : Nat) (w : World) :
    ((main fuel w).written = [] ∧ (main fuel w).forwardPasses = [] ∧
        (main fuel w).framesRead = 0 ∧ (main fuel w).readCalls = 0) ∨
      ∃ labels inputFile outputFile useCuda,
        w.commandLine = CommandLine.options inputFile outputFile useCuda ∧
        main fuel w =
          mainLoop w labels (selectCuda w.deviceCount w.isCompatible useCuda) fuel 0
            { Outcome.start with sink := some (WIDTH, HEIGHT) } := by
  unfold main
  split
  · exact Or.inl ⟨rfl, rfl, rfl, rfl⟩
  · exact Or.inl ⟨rfl, rfl, rfl, rfl⟩
  · rename_i inputFile outputFile useCuda hc
    split
    · exact Or.inl ⟨rfl, rfl, rfl, rfl⟩
    · split
      · exact Or.inl ⟨rfl, rfl, rfl, rfl⟩
      · rename_i labels _
        split
        · exact Or.inl ⟨rfl, rfl, rfl, rfl⟩
        · exact Or.inr ⟨labels, inputFile, outputFile, useCuda, hc, rfl⟩

/-- C8: in every run, whatever the size of the captured pictures, every frame
passed to the output sink is `500 x 500`, the size the sink was opened with;
the number of frames written never exceeds the number of frames read from the
source, hence never exceeds the number of frames the source can deliver. -/
theorem written_frames_fixed_size (fuel : Nat) (w : World) :
    (∀ m ∈ (main fuel w).written,
      m.cols = 500 ∧ m.rows = 500 ∧ (main fuel w).sink = some (m.cols, m.rows)) ∧
    (main fuel w).written.length ≤ (main fuel w).framesRead ∧
    (main fuel w).framesRead ≤ (main fuel w).readCalls ∧
    ∀ N, (∀ k, N ≤ k → (w.tick k).frame = none) → (main fuel w).written.length ≤ N := by
  rcases main_cases fuel w with ⟨h1, _, h3, h4⟩ | ⟨labels, i, o, u, _, h⟩
  · rw [h1, h3, h4]
    simp
  · rw [h]
    refine ⟨?_, ?_, ?_, ?_⟩
    · intro m hm
      rw [mainLoop_sink]
      rcases mainLoop_written_mem _ _ _ _ _ _ m hm with hm | ⟨j, img, net, hm⟩
      · simp [Outcome.start] at hm
      · rw [processFrame_completed _ _ _ _ _ _ _ _ hm]
        exact ⟨rfl, rfl, rfl⟩
    · have := (mainLoop_counts w labels (selectCuda w.deviceCount w.isCompatible u) fuel 0
        { Outcome.start with sink := some (WIDTH, HEIGHT) }).1
      simpa [Outcome.start] using this
    · have := (mainLoop_counts w labels (selectCuda w.deviceCount w.isCompatible u) fuel 0
        { Outcome.start with sink := some (WIDTH, HEIGHT) }).2
      simpa [Outcome.start] using this
    · intro N hN
      have := mainLoop_written_le w labels (selectCuda w.deviceCount w.isCompatible u) N hN
        fuel 0 { Outcome.start with sink := some (WIDTH, HEIGHT) }
      simpa [Outcome.start] using this

/-- The ten-frame source of `640 x 480` pictures delivers no frame from index
10 on, so at most ten frames are written. -/
theorem written_frames_fixed_size_witness :
    (main 20 tenFrameWorld).written.length ≤ 10 :=
  (written_frames_fixed_size 20 tenFrameWorld).2.2.2 10 (by
    intro k hk
    have : ¬ k < 10 := by omega
    simp [tenFrameWorld, World.running, quietTick, this])


/-! ## Acceleration selection -/

theorem selectCuda_iff (deviceCount : Int) (isCompatible useCuda : Bool) :
    selectCuda deviceCount isCompatible useCuda = true ↔
      deviceCount ≠ 0 ∧ isCompatible = true ∧ useCuda = true := by
  unfold selectCuda
  by_cases hd : deviceCount = 0
  · simp [hd]
  · cases isCompatible <;> cases useCuda <;> simp [hd]

theorem drawRow_not_usingText (labels : List (List Char)) (cols rows : Int) (r : Row)
    (text : List Char) : usingText text ∉ (drawRow labels cols rows r).1 := by
  rcases drawRow_cases labels cols rows r with h | h | h | h
  · rw [h.2]; simp
  · rw [h.2.2]; simp
  · rw [h.2.2.2]; simp [boxCalls, usingText]
  · rw [h.2.2]; simp [boxCalls, usingText]

theorem detectionLoop_not_usingText (labels : List (List Char)) (cols rows : Int)
    (score : List Row) (text : List Char) :
    usingText text ∉ (detectionLoop labels cols rows score).1 := by
  induction score with
  | nil => simp [detectionLoop]
  | cons r rest ih =>
    have hrow := drawRow_not_usingText labels cols rows r text
    by_cases h : CONFIDENCE_THRESHOLD.lt r.confidence = true
    · cases hd : drawRow labels cols rows r with
      | mk calls fault =>
        rw [hd] at hrow
        cases fault with
        | some f =>
          rw [detectionLoop_cons_fault _ _ _ _ _ h _ _ hd]
          exact hrow
        | none =>
          rw [detectionLoop_cons_drawn _ _ _ _ _ h _ hd]
          simp only [List.mem_append, not_or]
          exact ⟨hrow, ih⟩
    · rw [detectionLoop_cons_skip _ _ _ _ _ h]
      exact ih

theorem processFrame_usingText (labels : List (List Char)) (ce nd : Bool) (img : Image)
    (score : List Row) (t : Dyadic) (net : Net) (m : Mat)
    (h : processFrame labels ce nd img score t = (net, m, none)) :
    (usingText "using GPUs".toList ∈ m.drawn ↔ ce = true) ∧
    (usingText "using CPUs".toList ∈ m.drawn ↔ ce = false) := by
  have hg := detectionLoop_not_usingText labels WIDTH HEIGHT score "using GPUs".toList
  have hc := detectionLoop_not_usingText labels WIDTH HEIGHT score "using CPUs".toList
  rw [processFrame_completed _ _ _ _ _ _ _ _ h]
  simp only [List.mem_append, hg, hc, false_or]
  cases ce <;> simp [statusLine, usingText, WIDTH, HEIGHT]

/-- C7: `cudaEnable` is true exactly when the device count is non-zero, the
device is compatible and the GPU flag is set. In a run with that flag, every
network used for a forward pass has the CUDA backend and target exactly in
that case and is left at its defaults (CPU) otherwise, and every frame
written carries the status text `using GPUs` exactly in that case and
`using CPUs` exactly otherwise. -/
theorem cuda_selected_iff (fuel : Nat) (w : World) (inputFile outputFile : List Char)
    (useCuda : Bool) :
    (selectCuda w.deviceCount w.isCompatible useCuda = true ↔
      w.deviceCount ≠ 0 ∧ w.isCompatible = true ∧ useCuda = true) ∧
    (∀ net ∈ (main fuel
        { w with commandLine := CommandLine.options inputFile outputFile useCuda }).forwardPasses,
      (net = Net.cuda ↔ w.deviceCount ≠ 0 ∧ w.isCompatible = true ∧ useCuda = true) ∧
      (net = Net.loaded ↔ ¬ (w.deviceCount ≠ 0 ∧ w.isCompatible = true ∧ useCuda = true))) ∧
    (∀ m ∈ (main fuel
        { w with commandLine := CommandLine.options inputFile outputFile useCuda }).written,
      (usingText "using GPUs".toList ∈ m.drawn ↔
        w.deviceCount ≠ 0 ∧ w.isCompatible = true ∧ useCuda = true) ∧
      (usingText "using CPUs".toList ∈ m.drawn ↔
        ¬ (w.deviceCount ≠ 0 ∧ w.isCompatible = true ∧ useCuda = true))) := by
  have hsel := selectCuda_iff w.deviceCount w.isCompatible useCuda
  refine ⟨hsel, ?_, ?_⟩
  · intro net hn
    rcases main_cases fuel
        { w with commandLine := CommandLine.options inputFile outputFile useCuda } with
      ⟨_, h2, _, _⟩ | ⟨labels, i, o, u, hc, h⟩
    · rw [h2] at hn; simp at hn
    · have hu : u = useCuda := by
        simp only [CommandLine.options.injEq] at hc
        exact hc.2.2.symm
      subst hu
      rw [h] at hn
      rcases mainLoop_forwardPasses_mem _ _ _ _ _ _ net hn with hn | hn
      · simp [Outcome.start] at hn
      · subst hn
        rw [← hsel]
        cases hce : selectCuda w.deviceCount w.isCompatible u <;>
          simp [configureNet, Net.cuda, Net.loaded]
  · intro m hm
    rcases main_cases fuel
        { w with commandLine := CommandLine.options inputFile outputFile useCuda } with
      ⟨h1, _, _, _⟩ | ⟨labels, i, o, u, hc, h⟩
    · rw [h1] at hm; simp at hm
    · have hu : u = useCuda := by
        simp only [CommandLine.options.injEq] at hc
        exact hc.2.2.symm
      subst hu
      rw [h] at hm
      rcases mainLoop_written_mem _ _ _ _ _ _ m hm with hm | ⟨j, img, net, hm⟩
      · simp [Outcome.start] at hm
      · rw [← hsel]
        have := processFrame_usingText _ _ _ _ _ _ _ _ hm
        simpa using this

/-! ## A finite source read to its end -/

theorem processFrame_no_rows (labels : List (List Char)) (ce nd : Bool) (img : Image)
    (t : Dyadic) :
    processFrame labels ce nd img [] t =
      (configureNet ce Net.loaded, statusOnlyFrame img t nd ce, none) :=
  rfl

theorem mainLoop_exhausted (w : World) (labels : List (List Char)) (ce : Bool)
    (imgs : Nat → Image) (n : Nat)
    (hkey : ∀ k, k ≤ n → (w.tick k).key ≠ ESCAPE_KEY)
    (hframe : ∀ k, k < n →
      (w.tick k).frame = some (imgs k) ∧ (w.tick k).netEmpty = false ∧ (w.tick k).score = [])
    (hend : (w.tick n).frame = none) (d : Nat) :
    ∀ (k fuel : Nat) (acc : Outcome), k + d = n → d < fuel →
      mainLoop w labels ce fuel k acc =
        { exit := some EXIT_FAILURE
          stderr := acc.stderr ++ ["Video camera is disconnected!".toList]
          readCalls := acc.readCalls + d + 1
          framesRead := acc.framesRead + d
          netLoads := acc.netLoads + d
          forwardPasses := acc.forwardPasses ++ List.replicate d (configureNet ce Net.loaded)
          sink := acc.sink
          written := acc.written ++
            (List.range' k d).map fun j => statusOnlyFrame (imgs j) (w.tick j).elapsed w.ndebug ce
          fault := acc.fault } := by
  induction d with
  | zero =>
    intro k fuel acc hk hfuel
    have hkn : k = n := by omega
    subst hkn
    obtain ⟨fuel, rfl⟩ : ∃ f, fuel = f + 1 := ⟨fuel - 1, by omega⟩
    simp [mainLoop, hkey k (le_refl k), hend]
  | succ d ih =>
    intro k fuel acc hk hfuel
    obtain ⟨fuel, rfl⟩ : ∃ f, fuel = f + 1 := ⟨fuel - 1, by omega⟩
    have hlt : k < n := by omega
    obtain ⟨hf, hne, hs⟩ := hframe k hlt
    simp only [mainLoop, hkey k (by omega), if_false, hf, hne, hs, processFrame_no_rows,
      Bool.false_eq_true]
    rw [ih (k + 1) fuel _ (by omega) (by omega)]
    simp only [List.range'_succ, List.map_cons, List.replicate_succ, List.append_assoc,
      List.singleton_append, Outcome.mk.injEq, true_and, and_true]
    refine ⟨by omega, by omega, by omega⟩

/-- C6 (as stated, refuted): on the ten-frame source, with two labels, a
network that loads, a detector that returns no row and no key pressed, the
run writes ten frames and then ends with `EXIT_FAILURE` and the message
`Video camera is disconnected!`; its exit status is not `EXIT_SUCCESS`. -/
theorem exhausted_source_exit_failure :
    getLabelsFromFile [] tenFrameWorld.labelFile = some ["person".toList, "car".toList] ∧
    (main 11 tenFrameWorld).written.length = 10 ∧
    (main 11 tenFrameWorld).stderr = ["Video camera is disconnected!".toList] ∧
    (main 11 tenFrameWorld).exit = some 1 ∧
    (main 11 tenFrameWorld).exit ≠ some EXIT_SUCCESS := by
  decide

/-- C6 (amended): for every source that delivers exactly `n` frames and then
fails to deliver, with a non-empty label list, a network that loads, a
detector that returns no row and no exit key pressed, the run (given more
than `n` iterations) writes exactly `n` frames, each resized to `500 x 500`
and annotated with the status line only, and then ends at the failed read
with the message `Video camera is disconnected!` and exit status
`EXIT_FAILURE`. -/
theorem exhausted_source_run (n fuel : Nat) (w : World) (inputFile outputFile : List Char)
    (useCuda : Bool) (labels : List (List Char)) (imgs : Nat → Image)
    (hc : w.commandLine = CommandLine.options inputFile outputFile useCuda)
    (ho : w.captureOpened = true)
    (hl : getLabelsFromFile [] w.labelFile = some labels) (hne : labels ≠ [])
    (hkey : ∀ k, k ≤ n → (w.tick k).key ≠ ESCAPE_KEY)
    (hframe : ∀ k, k < n →
      (w.tick k).frame = some (imgs k) ∧ (w.tick k).netEmpty = false ∧ (w.tick k).score = [])
    (hend : (w.tick n).frame = none) (hfuel : n < fuel) :
    main fuel w =
      { exit := some EXIT_FAILURE
        stderr := ["Video camera is disconnected!".toList]
        readCalls := n + 1
        framesRead := n
        netLoads := n
        forwardPasses :=
          List.replicate n (configureNet (selectCuda w.deviceCount w.isCompatible useCuda) Net.loaded)
        sink := some (WIDTH, HEIGHT)
        written := (List.range n).map fun j =>
          statusOnlyFrame (imgs j) (w.tick j).elapsed w.ndebug
            (selectCuda w.deviceCount w.isCompatible useCuda)
        fault := none } ∧
    (main fuel w).written.length = n ∧
    ∀ m ∈ (main fuel w).written, ∀ cmd ∈ m.drawn, cmd.isRectangle = false := by
  have hemp : labels.isEmpty = false := by
    cases labels with
    | nil => exact absurd rfl hne
    | cons a l => rfl
  have hmain : main fuel w =
      mainLoop w labels (selectCuda w.deviceCount w.isCompatible useCuda) fuel 0
        { Outcome.start with sink := some (WIDTH, HEIGHT) } := by
    unfold main
    simp only [hc, ho, hl, hemp, Bool.not_true, Bool.false_eq_true, if_false]
  rw [hmain,
    mainLoop_exhausted w labels _ imgs n hkey hframe hend n 0 fuel _ (by omega) hfuel]
  refine ⟨?_, ?_, ?_⟩
  · simp [Outcome.start, List.range_eq_range']
  · simp [Outcome.start]
  · intro m hm cmd hcmd
    simp only [Outcome.start, List.nil_append, List.mem_map] at hm
    obtain ⟨j, _, rfl⟩ := hm
    simp only [statusOnlyFrame, statusLine, List.mem_cons, List.mem_singleton,
      List.not_mem_nil, or_false] at hcmd
    rcases hcmd with h | h | h | h <;> subst h <;> rfl

/-- The ten-frame source read to its end, with eleven iterations allowed:
ten frames are written. -/
theorem exhausted_source_run_witness :
    (main 11 tenFrameWorld).written.length = 10 :=
  (exhausted_source_run 10 11 tenFrameWorld [] "output.mp4".toList true
    ["person".toList, "car".toList] (fun k => { cols := 640, rows := 480, origin := k })
    rfl rfl (by decide) (by decide)
    (by intro k _; simp [tenFrameWorld, World.running, quietTick, ESCAPE_KEY])
    (by intro k hk; simp [tenFrameWorld, World.running, quietTick, hk])
    (by decide) (by decide)).2.1

/-- With one compatible device and the GPU flag set, the frame written by a
one-iteration run on the ten-frame source carries `using GPUs`. -/
theorem cuda_selected_iff_witness :
    usingText "using GPUs".toList ∈
      (statusOnlyFrame { cols := 640, rows := 480, origin := 0 } { mant := 1, scale := 1 }
        false true).drawn :=
  ((cuda_selected_iff 1 { tenFrameWorld with deviceCount := 1 } [] "output.mp4".toList true).2.2
    (statusOnlyFrame { cols := 640, rows := 480, origin := 0 } { mant := 1, scale := 1 }
      false true) (by decide)).1.mpr (by decide)

end MobileNetSSD
